import Mathlib

/-!
Verification development for the `cmdpool` command executor
(`internal/executor`, file `executor.go`).

The executor manages a registry of `Command` records, spawns OS processes,
captures their output into bounded per-command buffers, and offers
stop/restart/snapshot operations.  This file shallowly embeds the executor:

* Go structs become Lean structures; `time.Time` values become `Nat` ticks
  supplied explicitly at each call site (Go calls `time.Now()` there);
  `error` values become `Option String` / `Except String` carrying the
  `fmt.Errorf` format result; the `*os.Process` handle becomes `Option Nat`
  (a pid, `none` = Go `nil`).
* Interaction with the operating system (pipe creation, process start,
  produced output lines, the `Wait` result) is passed in as an `OSEnv`
  record of oracle values: each field is the value the corresponding OS
  call returns in the run being modelled.
* The registry `map[string]*Command` is modelled as an association list
  with Go-map insert (overwrite-or-add) semantics.  Where pointer sharing
  itself is the property under study (`GetCommands`), a second model
  `ExecutorH` makes the heap explicit: pointers are indices into a list of
  `Command` cells.
* Goroutines that touch disjoint state (one per command id in
  `RunCommands`) are sequentialised; `RunCommands` joins all of them via
  `sync.WaitGroup` before returning, so its post-state is the state after
  every per-command task has finished.
-/

/-- Status constants of `executor.go` (`StatusPending` … `StatusStopped`). -/
inductive CommandStatus where
  | pending
  | running
  | done
  | failed
  | stopped
  deriving DecidableEq, Repr

/-- The `Command` struct of `executor.go`.  `CommandLine` embeds the Go field
named `Command` (the literal command string); `Process` is the
`*os.Process` handle, `none` when the Go pointer is `nil`. -/
structure Command where
  ID : String
  Name : String
  CommandLine : String
  Dir : String
  Status : CommandStatus
  Output : List String
  Error : Option String
  StartTime : Nat
  EndTime : Nat
  Process : Option Nat
  AutoRestart : Bool
  deriving DecidableEq, Repr

/-- The `Executor` struct: the `commands` registry, an association list with
unique keys standing for Go's `map[string]*Command` (the `ctx`/`cancel`
fields only serve the whole-executor shutdown path, which no modelled
operation consults). -/
structure Executor where
  commands : List (String × Command)
  deriving DecidableEq, Repr

/-- Go map read `e.commands[id]`. -/
def lookupCmd : List (String × Command) → String → Option Command
  | [], _ => none
  | (k, c) :: rest, id => if k = id then some c else lookupCmd rest id

/-- Go map write `e.commands[id] = c`: overwrite the entry if the key is
present, append it otherwise. -/
def insertCmd : List (String × Command) → String → Command → List (String × Command)
  | [], id, c => [(id, c)]
  | (k, c₀) :: rest, id, c =>
    if k = id then (id, c) :: rest else (k, c₀) :: insertCmd rest id c

/-- One step of the character loop of `parseCommand` (`executor.go`): state is
`(args, current, inQuotes)`. -/
def parseStep (st : List String × String × Bool) (c : Char) :
    List String × String × Bool :=
  let (args, current, inQuotes) := st
  if c = '"' then
    (args, current, !inQuotes)
  else if c = ' ' ∧ inQuotes = false then
    if current ≠ "" then (args ++ [current], "", inQuotes)
    else (args, current, inQuotes)
  else
    (args, current.push c, inQuotes)

/-- `parseCommand` of `executor.go`: split a command string into program and
arguments, toggling an in-quotes flag on `"` (the quote characters are
dropped), splitting on spaces only outside quotes, flushing the pending
token at the end. -/
def parseCommand (cmdStr : String) : List String :=
  let st := cmdStr.data.foldl parseStep ([], "", false)
  if st.2.1 ≠ "" then st.1 ++ [st.2.1] else st.1

/-- Tokenization as §4.4 of the specification words it, parameterised by the
separator class `sep`: scanning left to right, a `"` toggles the quoted
region (the quote itself is dropped), an unquoted separator ends the
current chunk, any other character extends the head chunk.  Built
top-down, in contrast to the accumulator loop of `parseCommand`. -/
def specSplit (sep : Char → Bool) : Bool → List Char → List (List Char)
  | _, [] => [[]]
  | q, c :: cs =>
    if c = '"' then specSplit sep (!q) cs
    else if sep c ∧ q = false then [] :: specSplit sep q cs
    else
      match specSplit sep q cs with
      | [] => [[c]]
      | t :: ts => (c :: t) :: ts

/-- The specification's tokenizer with the separator class the code actually
uses: the space character only.  Tokens are the non-empty chunks. -/
def parseCommandSpec (s : String) : List String :=
  ((specSplit (fun c => c = ' ') false s.data).filter (fun t => t ≠ [])).map
    (fun t => String.mk t)

/-- The specification's tokenizer read literally: "split on whitespace", any
whitespace character separating tokens. -/
def parseCommandSpecWS (s : String) : List String :=
  ((specSplit Char.isWhitespace false s.data).filter (fun t => t ≠ [])).map
    (fun t => String.mk t)

/-- The last `n` elements of a list (all of it when it is shorter). -/
def lastN (n : Nat) {α : Type _} (l : List α) : List α :=
  l.drop (l.length - n)

/-- `Command.setError`: record the error and move the status to Failed. -/
def setError (c : Command) (err : String) : Command :=
  { c with Error := some err, Status := .failed }

/-- `Command.addOutput`: append one line, then keep only the last 1000 lines
(`c.Output = c.Output[len(c.Output)-1000:]` when the length exceeds 1000). -/
def addOutput (c : Command) (line : String) : Command :=
  let out := c.Output ++ [line]
  if out.length > 1000 then
    { c with Output := out.drop (out.length - 1000) }
  else
    { c with Output := out }

/-- `Command.addErrorOutput`: a stderr line goes through `addOutput` with the
`[STDERR] ` tag prepended. -/
def addErrorOutput (c : Command) (line : String) : Command :=
  addOutput c ("[STDERR] " ++ line)

/-- `Command.GetOutput`: returns a copy of the output slice; in the value
model the copy is the value itself. -/
def GetOutput (c : Command) : List String :=
  c.Output

/-- Appending a whole sequence of captured lines through `addOutput`, in
arrival order. -/
def appendAll (c : Command) (lines : List String) : Command :=
  lines.foldl addOutput c

/-- One line arriving on one of the two capture streams, in arrival order.
The stdout reader calls `addOutput`, the stderr reader `addErrorOutput`;
a run's interleaving of the two streams is the order of this list. -/
inductive OutEvent where
  | out (s : String)
  | err (s : String)
  deriving DecidableEq, Repr

/-- Apply one captured line to the command's buffer. -/
def applyEvent (c : Command) : OutEvent → Command
  | .out s => addOutput c s
  | .err s => addErrorOutput c s

/-- Oracle for the OS interactions of one `executeCommand` run: the error
results of `StdoutPipe`, `StderrPipe` and `Start`, the pid of the started
process, the captured lines in arrival order, and the result of `Wait`
(`none` = exit status zero). -/
structure OSEnv where
  stdoutPipeErr : Option String
  stderrPipeErr : Option String
  startErr : Option String
  pid : Nat
  events : List OutEvent
  waitErr : Option String
  deriving DecidableEq, Repr

/-- Tail of `executeCommand` after `execCmd.Wait()` and `wg.Wait()` return:
stamp `EndTime`, then `setError` on a non-nil wait error, else status Done. -/
def finishWait (c : Command) (now : Nat) (waitErr : Option String) : Command :=
  let c := { c with EndTime := now }
  match waitErr with
  | some e => setError c e
  | none => { c with Status := .done }

/-- `Executor.executeCommand`: parse, fail on an empty command, set up the
two pipes, start the process, record handle and Running status, drain both
streams, then finalize from the `Wait` result.  The returned `Bool` is true
iff a process was started. -/
def executeCommand (c : Command) (env : OSEnv) (finNow : Nat) :
    Command × Bool :=
  let args := parseCommand c.CommandLine
  if args = [] then
    (setError c "empty command", false)
  else
    match env.stdoutPipeErr with
    | some e => (setError c ("failed to create stdout pipe: " ++ e), false)
    | none =>
      match env.stderrPipeErr with
      | some e => (setError c ("failed to create stderr pipe: " ++ e), false)
      | none =>
        match env.startErr with
        | some e => (setError c ("failed to start command: " ++ e), false)
        | none =>
          let c := { c with Process := some env.pid, Status := .running }
          let c := env.events.foldl applyEvent c
          (finishWait c finNow env.waitErr, true)

/-- `Executor.runCommand`: build a fresh Pending record, register it, then
run `executeCommand` on it (the registry entry and the executing record are
the same Go pointer, so the final state is written back to the registry). -/
def runCommand (e : Executor) (id command dir : String) (autoRestart : Bool)
    (now : Nat) (env : OSEnv) (finNow : Nat) : Executor :=
  let cmd : Command :=
    { ID := id, Name := command, CommandLine := command, Dir := dir,
      Status := .pending, Output := [], Error := none,
      StartTime := now, EndTime := 0, Process := none,
      AutoRestart := autoRestart }
  let e := { e with commands := insertCmd e.commands id cmd }
  { e with commands := insertCmd e.commands id (executeCommand cmd env finNow).1 }

/-- `Executor.RunCommands`: one goroutine per command string, id `cmd_i`,
directory `"."`, autoRestart false; `wg.Wait()` joins them all before the
function returns, so the result is the registry after every task ran to
completion.  The goroutines touch distinct ids, so their sequentialisation
is faithful to the final registry.  `envs i` / `times i` are the OS oracle
and the `time.Now` ticks seen by the i-th task. -/
def RunCommands (e : Executor) (commands : List String)
    (envs : Nat → OSEnv) (times : Nat → Nat × Nat) : Executor :=
  (List.range commands.length).foldl
    (fun acc i =>
      runCommand acc ("cmd_" ++ toString i) (commands.getD i "") "."
        false (times i).1 (envs i) (times i).2)
    e

/-- `Executor.StopCommand`: NotFound error for an unknown id; silently return
on a nil process handle; otherwise `Kill` — on a kill error return it at
once (the status is left as it was), on success set Stopped and stamp
`EndTime`.  `killErr` is the oracle result of `Process.Kill()`. -/
def StopCommand (e : Executor) (id : String) (now : Nat)
    (killErr : Option String) : Except String Unit × Executor :=
  match lookupCmd e.commands id with
  | none => (.error ("command " ++ id ++ " not found"), e)
  | some cmd =>
    match cmd.Process with
    | none => (.ok (), e)
    | some _ =>
      match killErr with
      | some msg => (.error ("failed to kill process: " ++ msg), e)
      | none =>
        let stopped := { cmd with Status := .stopped, EndTime := now }
        (.ok (), { e with commands := insertCmd e.commands id stopped })

/-- Reset block of `Executor.RestartCommand`: Pending status, empty buffer,
cleared error and handle, fresh `StartTime`, zero `EndTime`; identity,
command line, directory and autoRestart flag are untouched. -/
def resetCommand (c : Command) (now : Nat) : Command :=
  { c with
    Status := .pending, Output := [], Error := none,
    StartTime := now, EndTime := 0, Process := none }

/-- `Executor.RestartCommand`: NotFound for an unknown id; an internal
`StopCommand` first when the status is Running, propagating its error
without touching the record; then reset the record and relaunch
`go executeCommand(cmd)`.  The relaunch is asynchronous, so the returned
state is the registry at return time; the third component is the record
handed to the relaunched task (`none` when no relaunch was scheduled). -/
def RestartCommand (e : Executor) (id : String) (nowStop nowReset : Nat)
    (killErr : Option String) : Except String Unit × Executor × Option Command :=
  match lookupCmd e.commands id with
  | none => (.error ("command " ++ id ++ " not found"), e, none)
  | some cmd =>
    if cmd.Status = .running then
      match StopCommand e id nowStop killErr with
      | (.error msg, e') => (.error msg, e', none)
      | (.ok _, e') =>
        let cmd' := (lookupCmd e'.commands id).getD cmd
        let r := resetCommand cmd' nowReset
        (.ok (), { e' with commands := insertCmd e'.commands id r }, some r)
    else
      let r := resetCommand cmd nowReset
      (.ok (), { e with commands := insertCmd e.commands id r }, some r)

/-- Heap-explicit model of the executor, used where Go pointer sharing is
itself the property under study: `heap` is the store of `Command` cells and
a `*Command` pointer is an index into it; the registry maps ids to
pointers. -/
structure ExecutorH where
  heap : List Command
  commands : List (String × Nat)
  deriving DecidableEq, Repr

/-- `Executor.GetCommands` on the heap model: `result := make(map); for k, v
:= range e.commands \x7b result[k] = v \x7d` — a fresh top-level map whose
entries carry the same `*Command` pointers. -/
def GetCommandsH (e : ExecutorH) : List (String × Nat) :=
  e.commands.foldl (fun result kv => result ++ [kv]) []

/-- A write through a `*Command` pointer: update the pointed-to heap cell. -/
def heapWrite : List Command → Nat → (Command → Command) → List Command
  | [], _, _ => []
  | c :: rest, 0, f => f c :: rest
  | c :: rest, n + 1, f => c :: heapWrite rest n f

/-- What the executor's registry observes: each id together with the
`Command` its pointer designates in the heap. -/
def derefAll (heap : List Command) (reg : List (String × Nat)) :
    List (String × Option Command) :=
  reg.map (fun kv => (kv.1, heap.get? kv.2))

deriving instance DecidableEq for Except

/-- A freshly registered Pending record, as `runCommand` creates it for the
string `echo hi`. -/
def samplePending : Command :=
  { ID := "cmd_0", Name := "echo hi", CommandLine := "echo hi", Dir := ".",
    Status := .pending, Output := [], Error := none, StartTime := 0,
    EndTime := 0, Process := none, AutoRestart := false }

/-- A long-running registered command observed mid-run: Running, one captured
line, live pid 7. -/
def sampleRunning : Command :=
  { ID := "cmd_0", Name := "sleep 100", CommandLine := "sleep 100", Dir := ".",
    Status := .running, Output := ["x"], Error := none, StartTime := 1,
    EndTime := 0, Process := some 7, AutoRestart := false }

/-- An executor whose registry holds the single mid-run command above. -/
def sampleExec : Executor := ⟨[("cmd_0", sampleRunning)]⟩

/-- An executor whose registry holds the single Pending command above. -/
def sampleExecPending : Executor := ⟨[("cmd_0", samplePending)]⟩

/-- OS oracle of a clean `echo hi` run: pipes and start succeed, pid 7, one
stdout line, `Wait` returns nil. -/
def sampleEnv : OSEnv :=
  { stdoutPipeErr := none, stderrPipeErr := none, startErr := none,
    pid := 7, events := [.out "hi"], waitErr := none }

/-- An executor in the heap-explicit model: one heap cell, registry entry
`cmd_0` pointing at it. -/
def sampleExecH : ExecutorH := ⟨[samplePending], [("cmd_0", 0)]⟩

/-- Oracles shared by the concrete `RunCommands` runs: every task sees the
clean `echo hi` environment and ticks 1 and 2. -/
def goodEnvs : Nat → OSEnv := fun _ => sampleEnv

/-- Timestamps of the concrete runs. -/
def goodTimes : Nat → Nat × Nat := fun _ => (1, 2)

/-- The registry produced by the concrete `RunCommands` run. -/
def c6post : Executor := RunCommands ⟨[]⟩ ["echo hi"] goodEnvs goodTimes

/-- The command the concrete run registered under `cmd_0`. -/
def c6cmd : Command := (lookupCmd c6post.commands "cmd_0").getD samplePending

/-- A command string that tokenizes to nothing: spaces only. -/
def sampleEmptyCmd : Command := { samplePending with CommandLine := "   " }

/-- The token-flush step that ends `parseCommand`: emit the pending partial
token unless it is empty. -/
def flushTok (st : List String × String × Bool) : List String :=
  if st.2.1 ≠ "" then st.1 ++ [st.2.1] else st.1

/-- Prepend pending characters onto the head chunk of a chunk list. -/
def consHead {α : Type _} (xs : List α) : List (List α) → List (List α)
  | [] => [xs]
  | t :: ts => (xs ++ t) :: ts

/-- C1: the claim fails on the code. A successful `StopCommand` on a Running
command does set Stopped and stamp `EndTime`, but the `executeCommand`
goroutine is still blocked in `Wait`; the kill makes `Wait` return a
non-nil error (`signal: killed`), and the wait path then calls `setError`,
overwriting Stopped with Failed — the run below exhibits the forbidden
later Failed transition. -/
theorem C1_killed_wait_overwrites_stopped :
    (StopCommand sampleExec "cmd_0" 5 none).1 = .ok () ∧
    (lookupCmd (StopCommand sampleExec "cmd_0" 5 none).2.commands "cmd_0").map
      Command.Status = some .stopped ∧
    (finishWait
      ((lookupCmd (StopCommand sampleExec "cmd_0" 5 none).2.commands
         "cmd_0").getD sampleRunning) 6 (some "signal: killed")).Status =
      .failed := by
  decide

/-- C2: the claim fails on the code. `GetCommands` copies only the top-level
map — the returned entries carry the very `*Command` pointers the registry
holds — so a caller that writes through the snapshot (here: setting the
status of the cell behind the returned pointer to Done) changes the
command the registry observes. -/
theorem C2_snapshot_shares_command_pointers :
    GetCommandsH sampleExecH = sampleExecH.commands ∧
    derefAll
        (heapWrite sampleExecH.heap 0 (fun c => { c with Status := .done }))
        sampleExecH.commands ≠
      derefAll sampleExecH.heap sampleExecH.commands := by
  decide

/-- C3, counterexample to the claim as stated: when `Process.Kill` fails,
`StopCommand` returns before the status assignment, so the command stays
Running — it is not forced to Stopped. -/
theorem C3_counterexample_kill_failure_leaves_running :
    (StopCommand sampleExec "cmd_0" 5 (some "operation not permitted")).1 =
      .error "failed to kill process: operation not permitted" ∧
    (lookupCmd (StopCommand sampleExec "cmd_0" 5
        (some "operation not permitted")).2.commands "cmd_0").map
      Command.Status = some .running := by
  decide

/-- C3 amended: if the OS-level kill attempt inside stop fails, stop returns
the KillFailed error and leaves the executor — in particular the stopped
command's status — completely unchanged (still Running, not Stopped). -/
theorem C3_kill_failure_returns_error_state_unchanged
    (e : Executor) (id : String) (now : Nat) (msg : String)
    (cmd : Command) (p : Nat)
    (hl : lookupCmd e.commands id = some cmd) (hp : cmd.Process = some p) :
    StopCommand e id now (some msg) =
      (.error ("failed to kill process: " ++ msg), e) := by
  simp [StopCommand, hl, hp]

theorem C3_witness :
    lookupCmd sampleExec.commands "cmd_0" = some sampleRunning ∧
    sampleRunning.Process = some 7 ∧
    StopCommand sampleExec "cmd_0" 5 (some "gone") =
      (.error ("failed to kill process: " ++ "gone"), sampleExec) :=
  ⟨by decide, by decide,
   C3_kill_failure_returns_error_state_unchanged sampleExec "cmd_0" 5 "gone"
     sampleRunning 7 (by decide) (by decide)⟩

/-- C7: for an id absent from the registry, both stop and restart return the
NotFound error and return the executor — registry and every registered
command — unchanged. -/
theorem C7_notfound_leaves_state_unchanged
    (e : Executor) (id : String) (now n₁ n₂ : Nat) (k k' : Option String)
    (h : lookupCmd e.commands id = none) :
    StopCommand e id now k = (.error ("command " ++ id ++ " not found"), e) ∧
    RestartCommand e id n₁ n₂ k' =
      (.error ("command " ++ id ++ " not found"), e, none) := by
  constructor
  · simp [StopCommand, h]
  · simp [RestartCommand, h]

theorem C7_witness :
    lookupCmd sampleExec.commands "ghost" = none ∧
    StopCommand sampleExec "ghost" 0 none =
      (.error ("command " ++ "ghost" ++ " not found"), sampleExec) ∧
    RestartCommand sampleExec "ghost" 0 1 none =
      (.error ("command " ++ "ghost" ++ " not found"), sampleExec, none) :=
  ⟨by decide,
   (C7_notfound_leaves_state_unchanged sampleExec "ghost" 0 0 1 none none
     (by decide)).1,
   (C7_notfound_leaves_state_unchanged sampleExec "ghost" 0 0 1 none none
     (by decide)).2⟩

/-- C8: the claim fails on the code. No terminal transition clears the
process handle: a command that runs to Done keeps its pid, and a command
moved to Stopped by `StopCommand` keeps it too — only `RestartCommand`
ever resets the handle to nil. -/
theorem C8_terminal_command_retains_process_handle :
    (executeCommand samplePending sampleEnv 3).1.Status = .done ∧
    (executeCommand samplePending sampleEnv 3).1.Process = some 7 ∧
    (lookupCmd (StopCommand sampleExec "cmd_0" 5 none).2.commands "cmd_0").map
      Command.Status = some .stopped ∧
    (lookupCmd (StopCommand sampleExec "cmd_0" 5 none).2.commands "cmd_0").map
      Command.Process = some (some 7) := by
  decide

/-- C10: stop on a registered command whose process handle is nil returns
success and leaves the executor — status, timestamps, buffer and error of
every command — unchanged: a silent no-op, not an error. -/
theorem C10_stop_nil_process_noop
    (e : Executor) (id : String) (now : Nat) (killErr : Option String)
    (cmd : Command)
    (hl : lookupCmd e.commands id = some cmd) (hp : cmd.Process = none) :
    StopCommand e id now killErr = (.ok (), e) := by
  simp [StopCommand, hl, hp]

theorem lastN_length_le {α : Type _} (n : Nat) (l : List α) :
    (lastN n l).length ≤ n := by
  simp only [lastN, List.length_drop]
  omega

theorem lastN_of_le {α : Type _} (n : Nat) (l : List α) (h : l.length ≤ n) :
    lastN n l = l := by
  simp [lastN, Nat.sub_eq_zero_of_le h]

theorem lastN_append_of_le {α : Type _} (n : Nat) (u v : List α)
    (h : n ≤ v.length) : lastN n (u ++ v) = lastN n v := by
  unfold lastN
  have h1 : (u ++ v).length - n = u.length + (v.length - n) := by
    simp only [List.length_append]; omega
  rw [h1, List.drop_append]

theorem lastN_lastN_append {α : Type _} (n : Nat) (x y : List α) :
    lastN n (lastN n x ++ y) = lastN n (x ++ y) := by
  by_cases h : x.length ≤ n
  · rw [lastN_of_le n x h]
  · have hlen : n ≤ (List.drop (x.length - n) x ++ y).length := by
      simp only [List.length_append, List.length_drop]; omega
    conv_rhs => rw [← List.take_append_drop (x.length - n) x]
    rw [List.append_assoc, lastN_append_of_le n _ _ hlen]
    rfl

theorem addOutput_output (c : Command) (line : String) :
    (addOutput c line).Output = lastN 1000 (c.Output ++ [line]) := by
  by_cases h : 1000 < c.Output.length + 1
  · simp [addOutput, lastN, h]
  · simp [addOutput, lastN, h]
    rw [Nat.sub_eq_zero_of_le (by omega), List.drop_zero]

theorem appendAll_output (c : Command) (lines : List String)
    (h : c.Output.length ≤ 1000) :
    (appendAll c lines).Output = lastN 1000 (c.Output ++ lines) := by
  induction lines generalizing c with
  | nil => simpa [appendAll] using (lastN_of_le 1000 c.Output h).symm
  | cons l ls ih =>
    have h1 : (addOutput c l).Output.length ≤ 1000 := by
      rw [addOutput_output]; exact lastN_length_le _ _
    calc (appendAll c (l :: ls)).Output
        = (appendAll (addOutput c l) ls).Output := rfl
      _ = lastN 1000 ((addOutput c l).Output ++ ls) := ih (addOutput c l) h1
      _ = lastN 1000 (lastN 1000 (c.Output ++ [l]) ++ ls) := by
          rw [addOutput_output]
      _ = lastN 1000 ((c.Output ++ [l]) ++ ls) := lastN_lastN_append 1000 _ _
      _ = lastN 1000 (c.Output ++ l :: ls) := by rw [List.append_assoc]; rfl

/-- C4: starting from any reachable buffer (length at most 1000 — `Output`
starts empty and only `addOutput` writes it), the buffer never exceeds the
1000-line cap, and once more than 1000 lines have been appended the buffer
is exactly the last 1000 appended lines, in arrival order. -/
theorem C4_output_buffer_bounded_fifo (c : Command) (lines : List String)
    (h : c.Output.length ≤ 1000) :
    (appendAll c lines).Output.length ≤ 1000 ∧
    (1000 < lines.length → (appendAll c lines).Output = lastN 1000 lines) := by
  constructor
  · rw [appendAll_output c lines h]
    exact lastN_length_le _ _
  · intro hl
    rw [appendAll_output c lines h,
      lastN_append_of_le 1000 _ _ (Nat.le_of_lt hl)]

theorem C4_witness :
    samplePending.Output.length ≤ 1000 ∧
    (appendAll samplePending ["a", "b"]).Output.length ≤ 1000 ∧
    (1000 < (["a", "b"] : List String).length →
      (appendAll samplePending ["a", "b"]).Output = lastN 1000 ["a", "b"]) :=
  ⟨by decide,
   (C4_output_buffer_bounded_fifo samplePending ["a", "b"] (by decide)).1,
   (C4_output_buffer_bounded_fifo samplePending ["a", "b"] (by decide)).2⟩

theorem mem_insertCmd {reg : List (String × Command)} {k id : String}
    {v c : Command} (h : (id, c) ∈ insertCmd reg k v) :
    (id, c) ∈ reg ∨ (id = k ∧ c = v) := by
  induction reg with
  | nil =>
    simp [insertCmd] at h
    exact Or.inr h
  | cons kv rest ih =>
    obtain ⟨k₀, c₀⟩ := kv
    by_cases hk : k₀ = k
    · simp [insertCmd, hk] at h
      rcases h with ⟨h1, h2⟩ | h'
      · exact Or.inr ⟨h1, h2⟩
      · exact Or.inl (List.mem_cons_of_mem _ h')
    · simp [insertCmd, hk] at h
      rcases h with ⟨h1, h2⟩ | h'
      · subst h1; subst h2; exact Or.inl (List.mem_cons_self _ _)
      · rcases ih h' with h'' | h''
        · exact Or.inl (List.mem_cons_of_mem _ h'')
        · exact Or.inr h''

theorem insertCmd_insertCmd (reg : List (String × Command)) (k : String)
    (v v' : Command) :
    insertCmd (insertCmd reg k v) k v' = insertCmd reg k v' := by
  induction reg with
  | nil => simp [insertCmd]
  | cons kv rest ih =>
    obtain ⟨k₀, c₀⟩ := kv
    by_cases hk : k₀ = k <;> simp [insertCmd, hk, ih]

theorem lookupCmd_insertCmd_self (reg : List (String × Command)) (k : String)
    (v : Command) : lookupCmd (insertCmd reg k v) k = some v := by
  induction reg with
  | nil => simp [insertCmd, lookupCmd]
  | cons kv rest ih =>
    obtain ⟨k₀, c₀⟩ := kv
    by_cases hk : k₀ = k <;> simp [insertCmd, lookupCmd, hk, ih]

theorem finishWait_terminal (c : Command) (now : Nat) (w : Option String) :
    (finishWait c now w).Status = .done ∨
    (finishWait c now w).Status = .failed := by
  cases w <;> simp [finishWait, setError]

theorem executeCommand_terminal (c : Command) (env : OSEnv) (t : Nat) :
    (executeCommand c env t).1.Status = .done ∨
    (executeCommand c env t).1.Status = .failed := by
  unfold executeCommand
  by_cases ha : parseCommand c.CommandLine = []
  · simp [ha, setError]
  · cases h1 : env.stdoutPipeErr with
    | some e => simp [ha, h1, setError]
    | none =>
      cases h2 : env.stderrPipeErr with
      | some e => simp [ha, h1, h2, setError]
      | none =>
        cases h3 : env.startErr with
        | some e => simp [ha, h1, h2, h3, setError]
        | none =>
          simp only [ha, h1, h2, h3, if_neg]
          simp
          exact finishWait_terminal _ _ _

theorem mem_runCommand {e : Executor} {id₀ command dir : String} {ar : Bool}
    {n : Nat} {env : OSEnv} {fin : Nat} {id : String} {c : Command}
    (h : (id, c) ∈ (runCommand e id₀ command dir ar n env fin).commands) :
    (id, c) ∈ e.commands ∨ c.Status = .done ∨ c.Status = .failed := by
  simp only [runCommand] at h
  rw [insertCmd_insertCmd] at h
  rcases mem_insertCmd h with h' | ⟨_, hc⟩
  · exact Or.inl h'
  · subst hc
    exact Or.inr (executeCommand_terminal _ env fin)

theorem mem_foldl_runCommand (cmds : List String) (envs : Nat → OSEnv)
    (times : Nat → Nat × Nat) (l : List Nat) :
    ∀ (e : Executor) (id : String) (c : Command),
    (id, c) ∈ (l.foldl (fun acc i =>
        runCommand acc ("cmd_" ++ toString i) (cmds.getD i "") "." false
          (times i).1 (envs i) (times i).2) e).commands →
    (id, c) ∈ e.commands ∨ c.Status = .done ∨ c.Status = .failed := by
  induction l with
  | nil => exact fun e id c h => Or.inl h
  | cons i is ih =>
    intro e id c h
    rcases ih _ id c h with h' | h'
    · exact mem_runCommand h'
    · exact Or.inr h'

/-- C6, counterexample to the claim as stated: `RunCommands` joins a
`sync.WaitGroup` whose tasks each run `executeCommand` to completion, so
it blocks until every command is terminal — calling it on `echo hi`
returns a registry whose command is already Done, not the Pending record
that "returns as soon as registration is done" would leave. -/
theorem C6_counterexample_runCommands_blocks :
    (lookupCmd (RunCommands ⟨[]⟩ ["echo hi"] goodEnvs goodTimes).commands
      "cmd_0").map Command.Status = some .done ∧
    (lookupCmd (RunCommands ⟨[]⟩ ["echo hi"] goodEnvs goodTimes).commands
      "cmd_0").map Command.Status ≠ some .pending := by
  decide

/-- C6 amended: `RunCommands` synthesizes the id `cmd_i` for each string,
registers a Pending record and launches the commands concurrently, but it
blocks the caller until every launched command has completed: every entry
of the registry at return is either a pre-existing entry left untouched or
a command that has already reached a terminal state (Done or Failed). -/
theorem C6_runCommands_completes_all (e : Executor) (cmds : List String)
    (envs : Nat → OSEnv) (times : Nat → Nat × Nat) (id : String) (c : Command)
    (h : (id, c) ∈ (RunCommands e cmds envs times).commands) :
    (id, c) ∈ e.commands ∨ c.Status = .done ∨ c.Status = .failed := by
  unfold RunCommands at h
  exact mem_foldl_runCommand cmds envs times _ e id c h

theorem C6_witness :
    ("cmd_0", c6cmd) ∈ c6post.commands ∧
    (("cmd_0", c6cmd) ∈ (Executor.mk []).commands ∨ c6cmd.Status = .done ∨
      c6cmd.Status = .failed) :=
  ⟨by decide,
   C6_runCommands_completes_all ⟨[]⟩ ["echo hi"] goodEnvs goodTimes "cmd_0"
     c6cmd (by decide)⟩

/-- C9, counterexample to the claim as stated: for an id that is present but
Running with a kill that fails, `RestartCommand` propagates the stop error
and returns without resetting anything and without relaunching — the
output buffer is still `["x"]`, not emptied. -/
theorem C9_counterexample_restart_kill_failure_no_reset :
    (RestartCommand sampleExec "cmd_0" 5 6 (some "operation not permitted")).1 =
      .error "failed to kill process: operation not permitted" ∧
    (lookupCmd (RestartCommand sampleExec "cmd_0" 5 6
        (some "operation not permitted")).2.1.commands "cmd_0").map
      Command.Output = some ["x"] ∧
    (RestartCommand sampleExec "cmd_0" 5 6
      (some "operation not permitted")).2.2 = none := by
  decide

/-- C9 amended: for every id present in the registry, provided the internal
stop does not fail (the command is not Running, or its handle is nil, or
the kill succeeds), restart resets the command — empty output, nil error,
zero `EndTime`, Pending status, re-stamped `StartTime`, cleared handle —
preserves its id, command line, working directory and auto-restart flag,
and hands exactly that record to the relaunched execution task. -/
theorem C9_restart_resets_and_relaunches
    (e : Executor) (id : String) (cmd : Command) (n₁ n₂ : Nat)
    (killErr : Option String)
    (hl : lookupCmd e.commands id = some cmd)
    (hk : cmd.Status = .running → cmd.Process ≠ none → killErr = none) :
    ∃ r : Command,
      (RestartCommand e id n₁ n₂ killErr).1 = .ok () ∧
      (RestartCommand e id n₁ n₂ killErr).2.2 = some r ∧
      lookupCmd (RestartCommand e id n₁ n₂ killErr).2.1.commands id = some r ∧
      r.Status = .pending ∧ r.Output = [] ∧ r.Error = none ∧
      r.StartTime = n₂ ∧ r.EndTime = 0 ∧ r.Process = none ∧
      r.ID = cmd.ID ∧ r.CommandLine = cmd.CommandLine ∧ r.Dir = cmd.Dir ∧
      r.AutoRestart = cmd.AutoRestart := by
  by_cases hr : cmd.Status = .running
  · by_cases hp : cmd.Process = none
    · refine ⟨resetCommand cmd n₂, ?_⟩
      simp [RestartCommand, StopCommand, hl, hr, hp, resetCommand,
        lookupCmd_insertCmd_self]
    · obtain ⟨p, hp'⟩ : ∃ p, cmd.Process = some p := by
        cases hcp : cmd.Process with
        | none => exact absurd hcp hp
        | some p => exact ⟨p, rfl⟩
      have hk0 : killErr = none := hk hr hp
      subst hk0
      refine ⟨resetCommand { cmd with Status := .stopped, EndTime := n₁ } n₂, ?_⟩
      simp [RestartCommand, StopCommand, hl, hr, hp', resetCommand,
        lookupCmd_insertCmd_self]
  · refine ⟨resetCommand cmd n₂, ?_⟩
    simp [RestartCommand, hl, hr, resetCommand, lookupCmd_insertCmd_self]

theorem C9_witness :
    lookupCmd sampleExec.commands "cmd_0" = some sampleRunning ∧
    (∃ r : Command,
      (RestartCommand sampleExec "cmd_0" 5 6 none).1 = .ok () ∧
      (RestartCommand sampleExec "cmd_0" 5 6 none).2.2 = some r ∧
      lookupCmd (RestartCommand sampleExec "cmd_0" 5 6 none).2.1.commands
        "cmd_0" = some r ∧
      r.Status = .pending ∧ r.Output = [] ∧ r.Error = none ∧
      r.StartTime = 6 ∧ r.EndTime = 0 ∧ r.Process = none ∧
      r.ID = sampleRunning.ID ∧ r.CommandLine = sampleRunning.CommandLine ∧
      r.Dir = sampleRunning.Dir ∧ r.AutoRestart = sampleRunning.AutoRestart) :=
  ⟨by decide,
   C9_restart_resets_and_relaunches sampleExec "cmd_0" sampleRunning 5 6 none
     (by decide) (fun _ _ => rfl)⟩

theorem C10_witness :
    lookupCmd sampleExecPending.commands "cmd_0" = some samplePending ∧
    samplePending.Process = none ∧
    StopCommand sampleExecPending "cmd_0" 9 (some "whatever") =
      (.ok (), sampleExecPending) :=
  ⟨by decide, by decide,
   C10_stop_nil_process_noop sampleExecPending "cmd_0" 9 (some "whatever")
     samplePending (by decide) (by decide)⟩

theorem string_ne_iff_data (s : String) : s ≠ "" ↔ s.data ≠ [] := by
  constructor
  · intro h hd
    exact h (String.ext hd)
  · intro h hs
    subst hs
    exact h rfl

theorem parseCommand_eq_flushTok (s : String) :
    parseCommand s = flushTok (s.data.foldl parseStep ([], "", false)) := rfl

theorem flushTok_foldl (cs : List Char) :
    ∀ (args : List String) (cur : String) (q : Bool),
    flushTok (cs.foldl parseStep (args, cur, q)) =
      args ++ ((consHead cur.data (specSplit (fun c => c = ' ') q cs)).filter
        (fun t => t ≠ [])).map (fun t => String.mk t) := by
  induction cs with
  | nil =>
    intro args cur q
    by_cases h : cur = ""
    · subst h
      simp [flushTok, specSplit, consHead]
    · have hd : cur.data ≠ [] := (string_ne_iff_data cur).mp h
      simp [flushTok, specSplit, consHead, h, hd]
  | cons c cs ih =>
    intro args cur q
    simp only [List.foldl_cons]
    by_cases hq : c = '"'
    · subst hq
      have hstep : parseStep (args, cur, q) '"' = (args, cur, !q) := by
        simp [parseStep]
      rw [hstep, ih]
      simp [specSplit]
    · by_cases hsep : c = ' ' ∧ q = false
      · by_cases hcur : cur = ""
        · subst hcur
          have hstep : parseStep (args, "", q) c = (args, "", q) := by
            simp [parseStep, hq, hsep]
          rw [hstep, ih]
          obtain ⟨hc, hqf⟩ := hsep
          subst hc; subst hqf
          cases hts : specSplit (fun c => c = ' ') false cs with
          | nil => simp [specSplit, consHead, hts]
          | cons t ts => simp [specSplit, consHead, hts]
        · have hd : cur.data ≠ [] := (string_ne_iff_data cur).mp hcur
          have hstep : parseStep (args, cur, q) c = (args ++ [cur], "", q) := by
            simp [parseStep, hq, hsep, hcur]
          rw [hstep, ih]
          obtain ⟨hc, hqf⟩ := hsep
          subst hc; subst hqf
          cases hts : specSplit (fun c => c = ' ') false cs with
          | nil => simp [specSplit, consHead, hts, hd]
          | cons t ts => simp [specSplit, consHead, hts, hd]
      · have hstep : parseStep (args, cur, q) c = (args, cur.push c, q) := by
          simp [parseStep, hq, hsep]
        rw [hstep, ih]
        cases hts : specSplit (fun c => c = ' ') q cs with
        | nil =>
          simp [specSplit, hq, hsep, hts, consHead, String.data_push]
        | cons t ts =>
          simp [specSplit, hq, hsep, hts, consHead, String.data_push]

theorem parseCommand_eq_spec (s : String) :
    parseCommand s = parseCommandSpec s := by
  rw [parseCommand_eq_flushTok, flushTok_foldl]
  cases hts : specSplit (fun c => c = ' ') false s.data with
  | nil => simp [parseCommandSpec, consHead, hts]
  | cons t ts => simp [parseCommandSpec, consHead, hts]

/-- C5, counterexample to the claim as stated: the code splits on the space
character only, not on whitespace — on `a<TAB>b` the tokenizer of the code
yields the single token `a<TAB>b`, while splitting on whitespace (the
tokenizer `parseCommandSpecWS`, the claim's wording read literally) yields
the two tokens `a`, `b`. -/
theorem C5_counterexample_tab_not_split :
    parseCommand "a\tb" = ["a\tb"] ∧
    parseCommandSpecWS "a\tb" = ["a", "b"] ∧
    parseCommand "a\tb" ≠ parseCommandSpecWS "a\tb" := by
  decide

/-- C5 amended: the tokenizer splits on space characters (not all
whitespace); a pair of double quotes suppresses splitting for the span
between them with the quotes removed (no escapes, no single quotes, no
metacharacters) — stated as agreement of `parseCommand` with the
specification-style tokenizer `parseCommandSpec` on every input — and
whenever tokenization yields no tokens, executing the command sets status
Failed with the "empty command" error and spawns no process. -/
theorem C5_space_tokenizer_and_empty_failed :
    (∀ s : String, parseCommand s = parseCommandSpec s) ∧
    (∀ (c : Command) (env : OSEnv) (t : Nat),
      parseCommand c.CommandLine = [] →
      (executeCommand c env t).1.Status = .failed ∧
      (executeCommand c env t).1.Error = some "empty command" ∧
      (executeCommand c env t).2 = false) := by
  constructor
  · exact parseCommand_eq_spec
  · intro c env t h
    simp [executeCommand, h, setError]

theorem C5_witness :
    parseCommand "echo \"a b\" c" = parseCommandSpec "echo \"a b\" c" ∧
    parseCommand sampleEmptyCmd.CommandLine = [] ∧
    (executeCommand sampleEmptyCmd sampleEnv 3).1.Status = .failed ∧
    (executeCommand sampleEmptyCmd sampleEnv 3).1.Error = some "empty command" ∧
    (executeCommand sampleEmptyCmd sampleEnv 3).2 = false :=
  ⟨C5_space_tokenizer_and_empty_failed.1 "echo \"a b\" c",
   by decide,
   (C5_space_tokenizer_and_empty_failed.2 sampleEmptyCmd sampleEnv 3 (by decide)).1,
   (C5_space_tokenizer_and_empty_failed.2 sampleEmptyCmd sampleEnv 3 (by decide)).2.1,
   (C5_space_tokenizer_and_empty_failed.2 sampleEmptyCmd sampleEnv 3 (by decide)).2.2⟩
